import Mathlib

set_option maxRecDepth 2000

/-!
Verification of the multi-chain balance aggregator in
`telegram_crypto_bot.py` (class `CryptoBalanceBot`).

The embedding is shallow: text is `List Char`, monetary amounts are exact
rationals `ℚ` in place of Python floats, and each network interaction is
abstracted as an explicit outcome value (an inductive type enumerating the
ways the HTTP layer can answer), so that every function of the source
becomes a total Lean function of the outcome.
-/

/-- Python `str.lower` restricted to ASCII, the only alphabet the address
regex can produce (`0x` followed by `[a-fA-F0-9]`). -/
def asciiLower (c : Char) : Char :=
  if 'A' ≤ c ∧ c ≤ 'Z' then Char.ofNat (c.toNat + 32) else c

/-- Lowercasing of a word, as `addr.lower()` does in `parse_addresses`. -/
def lowerW (w : List Char) : List Char := w.map asciiLower

/-- The character class `[a-fA-F0-9]` of the address regex on line 142. -/
def isHexDigit (c : Char) : Bool :=
  ('a' ≤ c && c ≤ 'f') || ('A' ≤ c && c ≤ 'F') || ('0' ≤ c && c ≤ '9')

/-- Consume exactly `n` hex digits from the front of the text, returning
them; `none` when the text is too short or a non-hex character appears. -/
def takeHex : Nat → List Char → Option (List Char)
  | 0, _ => some []
  | _ + 1, [] => none
  | n + 1, c :: rest =>
    if isHexDigit c then (takeHex n rest).map (fun ds => c :: ds) else none

/-- Attempt to match the regex `0x[a-fA-F0-9]{40}` at the head of the text
(42 characters in total), returning the matched substring. -/
def matchAddr42 : List Char → Option (List Char)
  | c :: x :: rest =>
    if c = '0' ∧ x = 'x' then (takeHex 40 rest).map (fun ds => '0' :: 'x' :: ds)
    else none
  | _ => none

/-- Scanner loop for `re.findall`, driven by fuel so that it is structural
(and hence evaluates inside the kernel); each step consumes at least one
character, so fuel = length of the text is always enough. -/
def findAllGo : Nat → List Char → List (List Char)
  | 0, _ => []
  | _ + 1, [] => []
  | f + 1, c :: rest =>
    match matchAddr42 (c :: rest) with
    | some m => m :: findAllGo f ((c :: rest).drop 42)
    | none => findAllGo f rest

/-- `re.findall(r'0x[a-fA-F0-9]\x7b40\x7d', text)` (line 143): the scan moves
left to right, emits each match and resumes right after it (non-overlapping
matches), otherwise advances one character. -/
def findAll (l : List Char) : List (List Char) := findAllGo l.length l

/-- The deduplication loop of `parse_addresses` (lines 145-152): `seen`
holds the lowercased forms already emitted; a new match is appended in its
ORIGINAL case while its lowercased form is added to `seen`. -/
def dedupLoop (seen : List (List Char)) : List (List Char) → List (List Char)
  | [] => []
  | a :: rest =>
    if lowerW a ∈ seen then dedupLoop seen rest
    else a :: dedupLoop (lowerW a :: seen) rest

/-- `CryptoBalanceBot.parse_addresses` (lines 140-153). -/
def parse_addresses (text : List Char) : List (List Char) :=
  dedupLoop [] (findAll text)

/-- Fuel-driven loop of `firstDedupBy`; fuel = length of the list is always
enough because `filter` never lengthens a list. -/
def firstDedupGo (key : List Char → List Char) : Nat → List (List Char) → List (List Char)
  | 0, _ => []
  | _ + 1, [] => []
  | f + 1, a :: rest =>
    a :: firstDedupGo key f (rest.filter (fun b => decide (key b ≠ key a)))

/-- First-occurrence deduplication under a key function, stated the way the
spec words it ("deduplicates by normalized form while preserving the order
of first occurrence"): keep each element and drop every later element
sharing its key. Used to compare `parse_addresses` against the spec. -/
def firstDedupBy (key : List Char → List Char) (l : List (List Char)) : List (List Char) :=
  firstDedupGo key l.length l

/-- Shape of a regex match: `0x` followed by exactly 40 hex digits. -/
def is_addr_shape (m : List Char) : Bool :=
  match m with
  | '0' :: 'x' :: ds => ds.length == 40 && ds.all isHexDigit
  | _ => false

/-- Value of one hex digit, as accepted by Python `int(s, 16)`. -/
def hexVal (c : Char) : Option Nat :=
  if '0' ≤ c ∧ c ≤ '9' then some (c.toNat - '0'.toNat)
  else if 'a' ≤ c ∧ c ≤ 'f' then some (c.toNat - 'a'.toNat + 10)
  else if 'A' ≤ c ∧ c ≤ 'F' then some (c.toNat - 'A'.toNat + 10)
  else none

/-- Accumulating loop of `hexDigits`. -/
def hexDigitsGo (acc : Nat) : List Char → Option Nat
  | [] => some acc
  | c :: rest =>
    match hexVal c with
    | some v => hexDigitsGo (acc * 16 + v) rest
    | none => none

/-- A non-empty run of hex digits read most-significant first; `none` on an
empty string or any non-hex character (Python `int` raises `ValueError`). -/
def hexDigits : List Char → Option Nat
  | [] => none
  | c :: rest => (hexVal c).bind (fun v => hexDigitsGo v rest)

/-- Drop an optional `0x`/`0X` prefix, as Python `int(s, 16)` allows. A bare
`0x` with nothing after it is left alone and then rejected by `hexDigits`,
matching Python's `ValueError` on `int("0x", 16)`. -/
def stripHexPrefix : List Char → List Char
  | '0' :: 'x' :: c :: rest => c :: rest
  | '0' :: 'X' :: c :: rest => c :: rest
  | l => l

/-- Python `int(s, 16)` on the RPC `result` string: an optional sign, an
optional `0x`/`0X` prefix, then at least one hex digit. (Python additionally
tolerates surrounding whitespace and underscores between digits; those
tolerances are omitted as no claim depends on them.) Note the sign: Python
happily parses `int("-0x1", 16) = -1`. -/
def parseHexInt : List Char → Option Int
  | '-' :: rest => (hexDigits (stripHexPrefix rest)).map (fun n => -(n : Int))
  | '+' :: rest => (hexDigits (stripHexPrefix rest)).map (fun n => (n : Int))
  | l => (hexDigits (stripHexPrefix l)).map (fun n => (n : Int))

/-- The ways the JSON body of an RPC response can present itself to
`get_eth_balance`: `malformed` stands for a body on which `response.json()`
raises (or whose `result` field is not a string, so that `int` raises a
`TypeError` — both are swallowed by the same `except` and yield `0.0`);
`object r` is a parsed object whose `result` field is `r` when present. -/
inductive JsonBody
  | malformed
  | object (result : Option (List Char))

/-- Outcome of one `session.post` as seen by `get_eth_balance`: `failure` is
any exception raised before a response is decoded (connection error,
timeout); otherwise a response with its HTTP status and body. -/
inductive HttpOutcome
  | failure
  | response (status : Nat) (body : JsonBody)

/-- `CryptoBalanceBot.get_eth_balance` (lines 78-98): on a 200 response with
a parseable `result` field, the wei value divided by `10^18`; `0` on every
other path (non-200 status, missing `result`, malformed body, any raised
exception). -/
def get_eth_balance : HttpOutcome → ℚ
  | .failure => 0
  | .response status body =>
    if status = 200 then
      match body with
      | .malformed => 0
      | .object none => 0
      | .object (some r) =>
        match parseHexInt r with
        | some n => (n : ℚ) / 10 ^ 18
        | none => 0
    else 0

/-- Body of the CoinGecko price response as seen by `get_eth_price`:
`object u` carries `data['ethereum']['usd']` when both keys are present. -/
inductive PriceBody
  | malformed
  | object (usd : Option ℚ)

/-- Outcome of the CoinGecko request, analogous to `HttpOutcome`. -/
inductive PriceOutcome
  | failure
  | response (status : Nat) (body : PriceBody)

/-- `CryptoBalanceBot.get_eth_price` (lines 46-75): the quoted price on a
200 response carrying `ethereum.usd`; `0.0` on every other path. -/
def get_eth_price : PriceOutcome → ℚ
  | .failure => 0
  | .response status body =>
    if status = 200 then
      match body with
      | .malformed => 0
      | .object none => 0
      | .object (some p) => p
    else 0

/-- The chain registry: the keys of `self.rpc_endpoints` (lines 21-31) in
their dict insertion order, which is the iteration order used by
`get_all_balances` and hence by every summary. -/
def rpc_chains : List String :=
  ["ethereum", "base", "ink", "arbitrum", "hyperliquid",
   "unichain", "polygon", "optimism", "bsc"]

/-- `CryptoBalanceBot.get_balances_for_chain` (lines 100-116), with the
per-address RPC answer abstracted as `fetch`. Batching in tens and the
0.1 s pacing sleep only schedule the requests; the resulting dict maps each
address to its fetched balance, keys in address order. (Python dicts would
collapse duplicate addresses; `parse_addresses` only ever supplies
pairwise-distinct ones.) -/
def get_balances_for_chain (fetch : String → HttpOutcome)
    (addresses : List String) : List (String × ℚ) :=
  addresses.map (fun a => (a, get_eth_balance (fetch a)))

/-- `CryptoBalanceBot.get_all_balances` (lines 118-137). Each chain's
collector task is run under `asyncio.gather(..., return_exceptions=True)`,
so its outcome is either a balance map (`Except.ok`) or a raised exception
(`Except.error`); an exception is replaced by a zero balance for every
requested address and the loop continues with the other chains. -/
def get_all_balances (collector : String → Except Unit (List (String × ℚ)))
    (addresses : List String) : List (String × List (String × ℚ)) :=
  rpc_chains.map (fun chain =>
    (chain, match collector chain with
      | .ok m => m
      | .error _ => addresses.map (fun a => (a, (0 : ℚ)))))

/-- `sum(balances.values())` for one chain (line 219). -/
def chain_total (m : List (String × ℚ)) : ℚ := (m.map (fun q => q.2)).sum

/-- The `chain_totals` dict of `balance_command` (lines 216-220), in
registry iteration order. -/
def chain_totals (allB : List (String × List (String × ℚ))) : List (String × ℚ) :=
  allB.map (fun p => (p.1, chain_total p.2))

/-- The `grand_total` accumulator of `balance_command` (lines 217-221). -/
def grand_total (allB : List (String × List (String × ℚ))) : ℚ :=
  ((chain_totals allB).map (fun q => q.2)).sum

/-- The comparison used by `sorted(chain_totals.items(), key=lambda item:
item[1], reverse=True)` (line 224): `a` may precede `b` iff `a`'s total is
at least `b`'s. Python's `sorted` is stable, so equal totals keep their
input order; `List.insertionSort` with this relation has exactly that
behavior. -/
def byDescTotal (a b : String × ℚ) : Prop := b.2 ≤ a.2

instance : DecidableRel byDescTotal :=
  fun a b => inferInstanceAs (Decidable (b.2 ≤ a.2))

/-- `sorted_chains` of `balance_command` (line 224). -/
def sorted_chains (ct : List (String × ℚ)) : List (String × ℚ) :=
  List.insertionSort byDescTotal ct

/-- The decision content of the rendered summary (lines 223-238):
`displayed` is the per-chain breakdown actually printed, `grand` the
numeric total, `usd` the USD line when one is printed, and
`warn_no_price` whether the "could not fetch live ETH price" notice is
printed. -/
structure Summary where
  displayed : List (String × ℚ)
  grand : ℚ
  usd : Option ℚ
  warn_no_price : Bool

/-- The per-chain breakdown actually rendered (lines 226-229): the sorted
totals filtered by `if total > 0`. -/
def displayed_chains (allB : List (String × List (String × ℚ))) : List (String × ℚ) :=
  (sorted_chains (chain_totals allB)).filter (fun p => decide (0 < p.2))

/-- The USD line of the summary (lines 233-236): printed only when
`grand_total > 0` and `eth_price > 0`, carrying `grand_total * eth_price`. -/
def usd_value (allB : List (String × List (String × ℚ))) (eth_price : ℚ) : Option ℚ :=
  if 0 < grand_total allB then
    (if 0 < eth_price then some (grand_total allB * eth_price) else none)
  else none

/-- The "could not fetch live ETH price" notice (lines 237-238): printed
when `grand_total > 0` but not `eth_price > 0`. -/
def warn_no_price (allB : List (String × List (String × ℚ))) (eth_price : ℚ) : Bool :=
  if 0 < grand_total allB then (if 0 < eth_price then false else true) else false

/-- Summary construction in `balance_command` (lines 216-238), assembled
from the components above. -/
def build_summary (allB : List (String × List (String × ℚ)))
    (eth_price : ℚ) : Summary :=
  ⟨displayed_chains allB, grand_total allB, usd_value allB eth_price,
   warn_no_price allB eth_price⟩

/-- The caller-facing outcomes of the `/balance` entry checks. -/
inductive GateOutcome
  | noAddresses
  | tooMany (n : Nat)
  | proceed (addrs : List (List Char))
deriving DecidableEq

/-- The entry checks of `balance_command` on the parsed address list
(lines 195-203): an empty list is answered with "No valid Ethereum
addresses found", more than 200 addresses with "Too many addresses
(len(addresses))", and only otherwise does the handler go on to fetch
balances. -/
def gate_on_parsed (addresses : List (List Char)) : GateOutcome :=
  if addresses = [] then .noAddresses
  else if 200 < addresses.length then .tooMany addresses.length
  else .proceed addresses

/-- The `/balance` entry checks applied to raw message text:
`addresses = self.parse_addresses(full_text)` (line 195) feeds the gate. -/
def balance_gate (text : List Char) : GateOutcome :=
  gate_on_parsed (parse_addresses text)

/-- Modelled from the spec: the `native_symbol` field of the spec's
ChainRegistry (§2, §3), which the source registry (lines 21-31) does not
carry. The spec names Ethereum, Base and Arbitrum as chains sharing the
symbol ETH (§4.6); the remaining chains are assigned their public native
assets (Ink, Unichain and Optimism settle in ETH; Polygon in POL, BSC in
BNB, Hyperliquid in HYPE). -/
def spec_native_symbol : String → String
  | "polygon" => "POL"
  | "bsc" => "BNB"
  | "hyperliquid" => "HYPE"
  | _ => "ETH"

/-- Per-symbol total as the spec describes it (§4.6 step 2): the sum of the
per-chain totals of exactly the chains carrying that native symbol. -/
def symbol_total (sym : String) (allB : List (String × List (String × ℚ))) : ℚ :=
  (((chain_totals allB).filter
    (fun p => decide (spec_native_symbol p.1 = sym))).map (fun q => q.2)).sum

/-! ### Concrete fixtures used by counterexamples and witnesses -/

instance : IsTotal (String × ℚ) byDescTotal :=
  ⟨fun a b => le_total b.2 a.2⟩

instance : IsTrans (String × ℚ) byDescTotal :=
  ⟨fun _ _ _ hab hbc => le_trans hbc hab⟩

/-- An address written in upper-case hex digits. -/
def upperAddrText : List Char := '0' :: 'x' :: List.replicate 40 'A'

/-- A lowercase address used as witness input. -/
def lowerAddrText : List Char := '0' :: 'x' :: List.replicate 40 'a'

/-- 201 concatenated copies of the same lowercase address. -/
def repeatedAddrText : List Char := (List.replicate 201 lowerAddrText).flatten

/-- A collector where the `base` task raises and every other chain
returns one reading of 2 ETH. -/
def failBaseCollector : String → Except Unit (List (String × ℚ)) :=
  fun c => if c = "base" then .error () else .ok [("0xabc", 2)]

/-- Whether an RPC outcome avoids a negative `result` value: any outcome
whose `result` field parses to a negative integer is the only way
`get_eth_balance` can produce a negative amount. -/
def result_nonneg : HttpOutcome → Bool
  | .response 200 (.object (some r)) =>
    match parseHexInt r with
    | some n => decide (0 ≤ n)
    | none => true
  | _ => true

/-- A collector giving `ethereum` a single reading of `10^-9` ETH — below
the spec's `1e-6` epsilon — and every other chain an empty result. -/
def tinyCollector : String → Except Unit (List (String × ℚ)) :=
  fun c => if c = "ethereum" then .ok [("0xa", 1 / 1000000000)] else .ok []

/-- The aggregated balances for `tinyCollector`. -/
def tinyBalances : List (String × List (String × ℚ)) :=
  get_all_balances tinyCollector ["0xa"]

/-- A collector whose only reading is the decoded balance of an RPC
response carrying the negatively-signed result string `-0xde0b6b3a7640000`
(`-10^18` wei, i.e. `-1` ETH). -/
def negCollector : String → Except Unit (List (String × ℚ)) :=
  fun c =>
    if c = "ethereum" then
      .ok [("0xa", get_eth_balance (.response 200 (.object (some ("-0xde0b6b3a7640000".data)))))]
    else .ok []

/-- The aggregated balances for `negCollector`. -/
def negBalances : List (String × List (String × ℚ)) :=
  get_all_balances negCollector ["0xa"]

/-- A collector giving `polygon` a single reading of 1 native unit and
every other chain an empty result. -/
def polyCollector : String → Except Unit (List (String × ℚ)) :=
  fun c => if c = "polygon" then .ok [("0xa", 1)] else .ok []

/-- The aggregated balances for `polyCollector`. -/
def polyBalances : List (String × List (String × ℚ)) :=
  get_all_balances polyCollector ["0xa"]

-- Sanity checks of the parsing embedding on tiny inputs.
example : parse_addresses [] = [] := by decide
example : findAll ('0' :: 'x' :: List.replicate 40 'a') =
    [('0' :: 'x' :: List.replicate 40 'a')] := by decide
example : findAll ('0' :: 'x' :: List.replicate 39 'a') = [] := by decide

-- Sanity checks of the balance embedding.
example : get_eth_balance (.response 200 (.object (some ("0xde0b6b3a7640000".data)))) = 1 := by
  have h : parseHexInt ("0xde0b6b3a7640000".data) = some 1000000000000000000 := by decide
  simp [get_eth_balance, h]
  norm_num
example : get_eth_balance (.response 200 (.object (some ("-0x1".data)))) < 0 := by
  have h : parseHexInt ("-0x1".data) = some (-1) := by decide
  simp [get_eth_balance, h]
  norm_num
example : get_eth_balance (.response 500 (.object (some ("0x1".data)))) = 0 := by
  simp [get_eth_balance]

/-! ### Lemmas about the address extractor -/

lemma takeHex_spec : ∀ (n : Nat) (l ds : List Char), takeHex n l = some ds →
    ds.length = n ∧ ds.all isHexDigit = true := by
  intro n
  induction n with
  | zero =>
    intro l ds h
    simp [takeHex] at h
    subst h
    simp
  | succ n ih =>
    intro l ds h
    cases l with
    | nil => simp [takeHex] at h
    | cons c rest =>
      simp only [takeHex] at h
      by_cases hc : isHexDigit c
      · rw [if_pos hc] at h
        cases hds : takeHex n rest with
        | none => rw [hds] at h; simp at h
        | some ds' =>
          rw [hds] at h
          simp only [Option.map_some'] at h
          obtain ⟨hlen, hall⟩ := ih rest ds' hds
          injection h with h
          subst h
          simp [List.all_cons, hc, hall, hlen]
      · rw [if_neg hc] at h
        simp at h

lemma matchAddr42_shape (l m : List Char) (h : matchAddr42 l = some m) :
    is_addr_shape m = true := by
  match l with
  | [] => exact Option.noConfusion h
  | [c] => exact Option.noConfusion h
  | c :: x :: rest =>
    simp only [matchAddr42] at h
    by_cases hcx : c = '0' ∧ x = 'x'
    · rw [if_pos hcx] at h
      cases hds : takeHex 40 rest with
      | none => rw [hds] at h; simp at h
      | some ds =>
        rw [hds] at h
        simp only [Option.map_some'] at h
        obtain ⟨hlen, hall⟩ := takeHex_spec 40 rest ds hds
        injection h with h
        subst h
        simp [is_addr_shape, hlen, hall]
    · rw [if_neg hcx] at h
      simp at h

lemma findAllGo_shape : ∀ (f : Nat) (l : List Char) (m : List Char),
    m ∈ findAllGo f l → is_addr_shape m = true := by
  intro f
  induction f with
  | zero => intro l m hm; exact absurd hm (List.not_mem_nil m)
  | succ f ih =>
    intro l m hm
    cases l with
    | nil => exact absurd hm (List.not_mem_nil m)
    | cons c rest =>
      simp only [findAllGo] at hm
      cases hmt : matchAddr42 (c :: rest) with
      | none => rw [hmt] at hm; exact ih rest m hm
      | some m' =>
        rw [hmt] at hm
        rcases List.mem_cons.mp hm with h | h
        · subst h; exact matchAddr42_shape _ _ hmt
        · exact ih _ m h

lemma findAll_shape (text : List Char) (m : List Char) (hm : m ∈ findAll text) :
    is_addr_shape m = true :=
  findAllGo_shape _ _ _ hm

lemma dedupLoop_subset : ∀ (l seen : List (List Char)) (m : List Char),
    m ∈ dedupLoop seen l → m ∈ l := by
  intro l
  induction l with
  | nil => intro seen m hm; simp [dedupLoop] at hm
  | cons a rest ih =>
    intro seen m hm
    simp only [dedupLoop] at hm
    by_cases hs : lowerW a ∈ seen
    · rw [if_pos hs] at hm
      exact List.mem_cons_of_mem _ (ih seen m hm)
    · rw [if_neg hs] at hm
      rcases List.mem_cons.mp hm with h | h
      · subst h; exact List.mem_cons_self _ _
      · exact List.mem_cons_of_mem _ (ih _ m h)

lemma dedupLoop_eq_firstDedupGo : ∀ (l seen : List (List Char)) (f : Nat),
    l.length ≤ f →
    dedupLoop seen l =
      firstDedupGo lowerW f (l.filter (fun a => decide (lowerW a ∉ seen))) := by
  intro l
  induction l with
  | nil =>
    intro seen f _
    cases f <;> simp [dedupLoop, firstDedupGo]
  | cons a rest ih =>
    intro seen f hf
    cases f with
    | zero => simp at hf
    | succ f =>
      simp only [dedupLoop]
      by_cases hs : lowerW a ∈ seen
      · rw [if_pos hs]
        have hfilter : (a :: rest).filter (fun a => decide (lowerW a ∉ seen)) =
            rest.filter (fun a => decide (lowerW a ∉ seen)) := by
          simp [List.filter_cons, hs]
        rw [hfilter]
        have hrest : rest.length ≤ f + 1 := by
          simp at hf; omega
        exact ih seen (f + 1) hrest
      · rw [if_neg hs]
        have hfilter : (a :: rest).filter (fun a => decide (lowerW a ∉ seen)) =
            a :: rest.filter (fun a => decide (lowerW a ∉ seen)) := by
          simp [List.filter_cons, hs]
        rw [hfilter]
        simp only [firstDedupGo]
        have hpred : ∀ b : List Char,
            ((rest.filter (fun a => decide (lowerW a ∉ seen))).filter
              (fun b => decide (lowerW b ≠ lowerW a))) =
            rest.filter (fun b => decide (lowerW b ∉ lowerW a :: seen)) := by
          intro _
          rw [List.filter_filter]
          apply List.filter_congr
          intro b _
          by_cases h1 : lowerW b = lowerW a <;> by_cases h2 : lowerW b ∈ seen <;>
            simp [h1, h2]
        rw [hpred a]
        have hrest : rest.length ≤ f := by simp at hf; omega
        rw [ih (lowerW a :: seen) f hrest]

lemma parse_addresses_eq_firstDedupBy (text : List Char) :
    parse_addresses text = firstDedupBy lowerW (findAll text) := by
  unfold parse_addresses firstDedupBy
  have h := dedupLoop_eq_firstDedupGo (findAll text) [] (findAll text).length le_rfl
  simpa using h

/-! ### C1: address extraction -/

/-- C1 (amended): for every input text, `parse_addresses` returns the
left-to-right non-overlapping matches of `0x` + 40 hex digits in their
ORIGINAL character case, deduplicated case-insensitively with the first
occurrence kept and order preserved (it coincides with first-occurrence
deduplication of the match list keyed on the lowercased form), and every
returned string has the 40-hex-digit address shape. The original claim's
"normalized to lowercase / fully lowercase" part is false: line 150 of the
source appends `addr`, not `addr_lower`. -/
theorem parse_addresses_dedups_matches (text : List Char) :
    parse_addresses text = firstDedupBy lowerW (findAll text) ∧
    ∀ m ∈ parse_addresses text, is_addr_shape m = true := by
  refine ⟨parse_addresses_eq_firstDedupBy text, ?_⟩
  intro m hm
  exact findAll_shape text m (dedupLoop_subset _ _ _ hm)

/-- C1 counterexample: on input consisting of one address written with
upper-case hex digits, `parse_addresses` returns that address in its
original (upper) case, which is not a lowercase string — refuting "each
normalized to lowercase" and "every string in the returned list is fully
lowercase". -/
theorem parse_addresses_not_lowercase :
    parse_addresses upperAddrText = [upperAddrText] ∧
    lowerW upperAddrText ≠ upperAddrText := by
  constructor
  · decide
  · decide

/-- Witness for C1's amended theorem at a concrete text. -/
theorem parse_addresses_dedups_matches_witness :
    parse_addresses lowerAddrText = firstDedupBy lowerW (findAll lowerAddrText) ∧
    is_addr_shape lowerAddrText = true :=
  ⟨(parse_addresses_dedups_matches lowerAddrText).1,
   (parse_addresses_dedups_matches lowerAddrText).2 lowerAddrText (by decide)⟩

/-! ### C7 and C10: the /balance entry checks -/

/-- C7: on a parsed address list of exactly 200 addresses the handler
proceeds to balance aggregation; on 201 it stops with the "too many
addresses" outcome (and fetches nothing, the gate returning before any
RPC call); on an empty extraction it stops with the "no addresses found"
outcome. -/
theorem gate_ceiling (a b : List (List Char))
    (h200 : a.length = 200) (h201 : b.length = 201) :
    gate_on_parsed a = .proceed a ∧
    gate_on_parsed b = .tooMany 201 ∧
    gate_on_parsed [] = .noAddresses := by
  refine ⟨?_, ?_, by simp [gate_on_parsed]⟩
  · have hne : a ≠ [] := by
      intro hcon
      rw [hcon] at h200
      simp at h200
    simp [gate_on_parsed, hne, h200]
  · have hne : b ≠ [] := by
      intro hcon
      rw [hcon] at h201
      simp at h201
    simp [gate_on_parsed, hne, h201]

/-- Witness for C7 at concrete lists of 200 and 201 addresses. -/
theorem gate_ceiling_witness :
    gate_on_parsed (List.replicate 200 lowerAddrText) =
      .proceed (List.replicate 200 lowerAddrText) ∧
    gate_on_parsed (List.replicate 201 lowerAddrText) = .tooMany 201 ∧
    gate_on_parsed [] = .noAddresses :=
  gate_ceiling (List.replicate 200 lowerAddrText)
    (List.replicate 201 lowerAddrText) (List.length_replicate 200 _)
    (List.length_replicate 201 _)

/-- C10: the 200-address ceiling is applied to the deduplicated count.
Whatever the number of raw textual occurrences (`findAll text`), the gate
looks only at `parse_addresses text`: if the deduplicated list is nonempty
and has at most 200 entries the request proceeds — even when the raw
occurrence count exceeds 200 — and the over-limit outcome occurs exactly
when the deduplicated count exceeds 200. -/
theorem gate_ceiling_on_deduplicated (text : List Char)
    (hocc : 200 < (findAll text).length)
    (hded : (parse_addresses text).length ≤ 200)
    (hne : parse_addresses text ≠ []) :
    balance_gate text = .proceed (parse_addresses text) ∧
    ∀ t : List Char,
      ((∃ n, balance_gate t = .tooMany n) ↔ 200 < (parse_addresses t).length) := by
  constructor
  · have : ¬ 200 < (parse_addresses text).length := by omega
    simp [balance_gate, gate_on_parsed, hne, this]
  · intro t
    constructor
    · rintro ⟨n, hn⟩
      by_cases he : parse_addresses t = []
      · simp [balance_gate, gate_on_parsed, he] at hn
      · by_cases hlen : 200 < (parse_addresses t).length
        · exact hlen
        · simp [balance_gate, gate_on_parsed, he, hlen] at hn
    · intro hlen
      have he : parse_addresses t ≠ [] := by
        intro hcon
        rw [hcon] at hlen
        simp at hlen
      exact ⟨(parse_addresses t).length,
        by simp [balance_gate, gate_on_parsed, he, hlen]⟩

lemma takeHex_append (ds rest : List Char) (hall : ds.all isHexDigit = true) :
    takeHex ds.length (ds ++ rest) = some ds := by
  induction ds with
  | nil => simp [takeHex]
  | cons c t ih =>
    simp only [List.all_cons, Bool.and_eq_true] at hall
    simp [takeHex, hall.1, ih hall.2]

lemma matchAddr42_lowerAddr (rest : List Char) :
    matchAddr42 (lowerAddrText ++ rest) = some lowerAddrText := by
  have htk : takeHex 40 (List.replicate 40 'a' ++ rest) = some (List.replicate 40 'a') := by
    have h := takeHex_append (List.replicate 40 'a') rest (by decide)
    rwa [List.length_replicate] at h
  show matchAddr42 ('0' :: 'x' :: (List.replicate 40 'a' ++ rest)) = some lowerAddrText
  simp only [matchAddr42]
  rw [if_pos (by simp), htk]
  rfl

lemma lowerAddr_append_drop (rest : List Char) :
    (lowerAddrText ++ rest).drop 42 = rest := by
  have h : lowerAddrText.length = 42 := by decide
  rw [← h, List.drop_left]

lemma findAllGo_cons_match (f : Nat) (l m : List Char)
    (hm : matchAddr42 l = some m) (hl : l ≠ []) :
    findAllGo (f + 1) l = m :: findAllGo f (l.drop 42) := by
  cases l with
  | nil => exact absurd rfl hl
  | cons c rest => simp [findAllGo, hm]

lemma findAllGo_rep : ∀ (n f : Nat), 42 * n ≤ f + 41 →
    findAllGo f ((List.replicate n lowerAddrText).flatten) =
      List.replicate n lowerAddrText := by
  intro n
  induction n with
  | zero =>
    intro f _
    cases f <;> simp [findAllGo]
  | succ n ih =>
    intro f hf
    cases f with
    | zero => omega
    | succ f =>
      rw [List.replicate_succ, List.flatten_cons]
      have hne : lowerAddrText ++ (List.replicate n lowerAddrText).flatten ≠ [] := by
        simp [lowerAddrText]
      rw [findAllGo_cons_match f _ _ (matchAddr42_lowerAddr _) hne,
        lowerAddr_append_drop, ih f (by omega)]

lemma findAll_rep (n : Nat) :
    findAll ((List.replicate n lowerAddrText).flatten) =
      List.replicate n lowerAddrText := by
  apply findAllGo_rep
  have hlen : ((List.replicate n lowerAddrText).flatten).length = n * 42 := by
    rw [List.length_flatten, List.map_replicate]
    have h42 : lowerAddrText.length = 42 := by decide
    rw [h42]
    simp [List.sum_replicate]
  rw [hlen]
  omega

lemma dedupLoop_replicate_seen (n : Nat) (seen : List (List Char))
    (a : List Char) (h : lowerW a ∈ seen) :
    dedupLoop seen (List.replicate n a) = [] := by
  induction n with
  | zero => simp [dedupLoop]
  | succ n ih => rw [List.replicate_succ]; simp [dedupLoop, h, ih]

lemma parse_addresses_rep (n : Nat) :
    parse_addresses ((List.replicate (n + 1) lowerAddrText).flatten) =
      [lowerAddrText] := by
  unfold parse_addresses
  rw [findAll_rep, List.replicate_succ]
  have hnot : lowerW lowerAddrText ∉ ([] : List (List Char)) := by simp
  simp [dedupLoop, hnot,
    dedupLoop_replicate_seen n [lowerW lowerAddrText] lowerAddrText (by simp)]

/-- Witness for C10: a text with 201 raw occurrences that deduplicate to a
single address is accepted. -/
theorem gate_ceiling_on_deduplicated_witness :
    balance_gate repeatedAddrText = .proceed (parse_addresses repeatedAddrText) ∧
    ∀ t : List Char,
      ((∃ n, balance_gate t = .tooMany n) ↔ 200 < (parse_addresses t).length) :=
  gate_ceiling_on_deduplicated repeatedAddrText
    (by rw [repeatedAddrText, findAll_rep, List.length_replicate]; omega)
    (by rw [repeatedAddrText, parse_addresses_rep]; simp)
    (by rw [repeatedAddrText, parse_addresses_rep]; simp)

/-! ### C4, C5, C8: failure absorption in the fetch layers -/

lemma map_fst_get_all_balances
    (collector : String → Except Unit (List (String × ℚ)))
    (addresses : List String) :
    (get_all_balances collector addresses).map (fun p => p.1) = rpc_chains := by
  unfold get_all_balances
  rw [List.map_map]
  exact List.map_id rpc_chains

/-- C4: `get_all_balances` absorbs chain-level failures. Its result always
covers exactly the registry's chains in registry order; a chain whose
collector task raised is mapped to a zero balance for every requested
address; a chain whose task returned is mapped to exactly its returned
balances, unaffected by the other chains' outcomes. Being a total function
into plain lists (no `Except` in the result), it propagates no exception
for any combination of per-read, per-chain or price-fetch failures. -/
theorem get_all_balances_isolates_failures
    (collector : String → Except Unit (List (String × ℚ)))
    (addresses : List String) :
    ((get_all_balances collector addresses).map (fun p => p.1) = rpc_chains) ∧
    (∀ c ∈ rpc_chains, collector c = .error () →
      (c, addresses.map (fun a => (a, (0 : ℚ)))) ∈
        get_all_balances collector addresses) ∧
    (∀ c ∈ rpc_chains, ∀ m, collector c = .ok m →
      (c, m) ∈ get_all_balances collector addresses) := by
  refine ⟨map_fst_get_all_balances collector addresses, ?_, ?_⟩
  · intro c hc herr
    unfold get_all_balances
    exact List.mem_map.mpr ⟨c, hc, by rw [herr]⟩
  · intro c hc m hok
    unfold get_all_balances
    exact List.mem_map.mpr ⟨c, hc, by rw [hok]⟩

/-- Witness for C4: with the `base` task failing, `base` is reported with a
zero balance for the requested address while `ethereum` keeps its own
result. -/
theorem get_all_balances_isolates_failures_witness :
    ("base", [("0xa", (0 : ℚ))]) ∈ get_all_balances failBaseCollector ["0xa"] ∧
    ("ethereum", [("0xabc", (2 : ℚ))]) ∈ get_all_balances failBaseCollector ["0xa"] :=
  ⟨(get_all_balances_isolates_failures failBaseCollector ["0xa"]).2.1
      "base" (by decide) rfl,
   (get_all_balances_isolates_failures failBaseCollector ["0xa"]).2.2
      "ethereum" (by decide) [("0xabc", 2)] rfl⟩

/-- C5: `get_eth_balance` returns a zero amount on every failure mode —
exception before a response (network error, timeout), non-200 status,
malformed body, missing `result` field, unparseable `result` field — so a
zero return is indistinguishable from a genuine zero balance. -/
theorem get_eth_balance_zero_on_failure :
    get_eth_balance .failure = 0 ∧
    (∀ (s : Nat) (b : JsonBody), s ≠ 200 → get_eth_balance (.response s b) = 0) ∧
    get_eth_balance (.response 200 .malformed) = 0 ∧
    get_eth_balance (.response 200 (.object none)) = 0 ∧
    (∀ r : List Char, parseHexInt r = none →
      get_eth_balance (.response 200 (.object (some r))) = 0) := by
  refine ⟨rfl, ?_, rfl, rfl, ?_⟩
  · intro s b hs
    simp [get_eth_balance, hs]
  · intro r hr
    simp [get_eth_balance, hr]

/-- Witness for C5 at a 404 status and at an unparseable result string. -/
theorem get_eth_balance_zero_on_failure_witness :
    get_eth_balance (.response 404 .malformed) = 0 ∧
    get_eth_balance (.response 200 (.object (some ['z']))) = 0 :=
  ⟨get_eth_balance_zero_on_failure.2.1 404 .malformed (by decide),
   get_eth_balance_zero_on_failure.2.2.2.2 ['z'] (by decide)⟩

/-- C8 counterexample: an RPC response whose `result` field is the string
`-0x1` (which Python's `int(s, 16)` happily parses as `-1`) makes
`get_eth_balance` return a strictly negative amount, refuting "the amount
returned by get_eth_balance is non-negative ... regardless of the content
of the response's result field". -/
theorem get_eth_balance_can_be_negative :
    get_eth_balance (.response 200 (.object (some ("-0x1".data)))) < 0 := by
  have h : parseHexInt ("-0x1".data) = some (-1) := by decide
  simp [get_eth_balance, h]
  norm_num

/-- C8 (amended): the amount returned by `get_eth_balance` is non-negative
for every outcome except a 200 response whose `result` string parses to a
negative integer (a leading minus sign, which no real RPC endpoint emits
but the code does not reject). -/
theorem get_eth_balance_nonneg (o : HttpOutcome)
    (h : result_nonneg o = true) : 0 ≤ get_eth_balance o := by
  cases o with
  | failure => simp [get_eth_balance]
  | response s b =>
    by_cases hs : s = 200
    · subst hs
      cases b with
      | malformed => simp [get_eth_balance]
      | object r =>
        cases r with
        | none => simp [get_eth_balance]
        | some str =>
          simp only [result_nonneg] at h
          cases hp : parseHexInt str with
          | none => simp [get_eth_balance, hp]
          | some n =>
            rw [hp] at h
            have hn : (0 : Int) ≤ n := of_decide_eq_true h
            simp only [get_eth_balance, hp, if_pos rfl]
            apply div_nonneg
            · exact_mod_cast hn
            · positivity
    · simp [get_eth_balance, hs]

/-- Witness for C8's amended theorem at a genuine RPC value (`10^18` wei). -/
theorem get_eth_balance_nonneg_witness :
    result_nonneg (.response 200 (.object (some ("0xde0b6b3a7640000".data)))) = true ∧
    0 ≤ get_eth_balance (.response 200 (.object (some ("0xde0b6b3a7640000".data)))) :=
  ⟨by decide, get_eth_balance_nonneg _ (by decide)⟩

/-! ### C9: ordering of the rendered breakdown -/

lemma filter_orderedInsert (v : ℚ) (a : String × ℚ) (l : List (String × ℚ)) :
    (List.orderedInsert byDescTotal a l).filter (fun p => decide (p.2 = v)) =
      if a.2 = v then a :: l.filter (fun p => decide (p.2 = v))
      else l.filter (fun p => decide (p.2 = v)) := by
  induction l with
  | nil =>
    by_cases ha : a.2 = v <;> simp [List.orderedInsert, List.filter, ha]
  | cons b t ih =>
    simp only [List.orderedInsert]
    by_cases hr : byDescTotal a b
    · rw [if_pos hr]
      by_cases ha : a.2 = v <;> by_cases hb : b.2 = v <;>
        simp [List.filter_cons, ha, hb]
    · rw [if_neg hr]
      by_cases ha : a.2 = v
      · have hb : ¬ b.2 = v := by
          intro hb
          exact hr (show b.2 ≤ a.2 by rw [hb, ha])
        simp [List.filter_cons, ha, hb, ih]
      · by_cases hb : b.2 = v <;> simp [List.filter_cons, ha, hb, ih]

lemma filter_sorted_chains (v : ℚ) (l : List (String × ℚ)) :
    (sorted_chains l).filter (fun p => decide (p.2 = v)) =
      l.filter (fun p => decide (p.2 = v)) := by
  unfold sorted_chains
  induction l with
  | nil => rfl
  | cons a t ih =>
    simp only [List.insertionSort]
    rw [filter_orderedInsert]
    by_cases ha : a.2 = v <;> simp [List.filter_cons, ha, ih]

/-- C9: the sorted per-chain list built on line 224 is a permutation of the
chain totals (taken in registry iteration order), it is sorted by
descending total, equal totals keep their registry order (for each total
value `v`, the sublist of entries with that total is exactly the one of the
input, in the same order — Python's `sorted` is stable), and the rendered
breakdown (the `total > 0` filter of it) inherits the descending order.
The output is therefore determined by the chain totals and the registry
order alone. -/
theorem breakdown_sorted_desc (allB : List (String × List (String × ℚ))) (p : ℚ) :
    List.Perm (sorted_chains (chain_totals allB)) (chain_totals allB) ∧
    List.Pairwise (fun a b : String × ℚ => b.2 ≤ a.2)
      (sorted_chains (chain_totals allB)) ∧
    (∀ v : ℚ, (sorted_chains (chain_totals allB)).filter (fun q => decide (q.2 = v)) =
      (chain_totals allB).filter (fun q => decide (q.2 = v))) ∧
    List.Pairwise (fun a b : String × ℚ => b.2 ≤ a.2)
      ((build_summary allB p).displayed) := by
  refine ⟨List.perm_insertionSort _ _, ?_, fun v => filter_sorted_chains v _, ?_⟩
  · exact List.sorted_insertionSort byDescTotal (chain_totals allB)
  · show List.Pairwise _ ((sorted_chains (chain_totals allB)).filter (fun p => decide (0 < p.2)))
    exact (List.sorted_insertionSort byDescTotal (chain_totals allB)).filter _

/-! ### C3: the breakdown display threshold -/

lemma sum_filter_pos_of_nonneg : ∀ l : List (String × ℚ), (∀ q ∈ l, 0 ≤ q.2) →
    ((l.filter (fun p => decide (0 < p.2))).map (fun q => q.2)).sum =
      (l.map (fun q => q.2)).sum := by
  intro l
  induction l with
  | nil => intro _; rfl
  | cons a t ih =>
    intro h
    have ha := h a (List.mem_cons_self a t)
    have ht : ∀ q ∈ t, 0 ≤ q.2 := fun q hq => h q (List.mem_cons_of_mem a hq)
    by_cases hp : 0 < a.2
    · simp [List.filter_cons, hp, ih ht]
    · have ha0 : a.2 = 0 := le_antisymm (not_lt.mp hp) ha
      simp [List.filter_cons, hp, ih ht, ha0]

/-- C3 (amended): a per-chain entry appears in the rendered breakdown iff
its total is strictly positive — the threshold in the code is `total > 0`
(line 228), not the claimed `1e-6`, so entries in `(0, 1e-6)` ARE shown.
Every chain's total, displayed or not, is counted in the grand total, and
when all chain totals are non-negative the displayed entries sum exactly to
the grand total (in particular, at most the grand total). -/
theorem breakdown_shows_positive_totals
    (allB : List (String × List (String × ℚ))) (p : ℚ)
    (hnn : ∀ q ∈ chain_totals allB, 0 ≤ q.2) :
    (∀ q ∈ (build_summary allB p).displayed, 0 < q.2) ∧
    (∀ q ∈ chain_totals allB, 0 < q.2 → q ∈ (build_summary allB p).displayed) ∧
    (build_summary allB p).grand = ((chain_totals allB).map (fun q => q.2)).sum ∧
    ((build_summary allB p).displayed.map (fun q => q.2)).sum =
      (build_summary allB p).grand := by
  have hdisp : (build_summary allB p).displayed =
      (sorted_chains (chain_totals allB)).filter (fun q => decide (0 < q.2)) := rfl
  have hgrand : (build_summary allB p).grand =
      ((chain_totals allB).map (fun q => q.2)).sum := rfl
  have hperm : List.Perm (sorted_chains (chain_totals allB)) (chain_totals allB) :=
    List.perm_insertionSort _ _
  refine ⟨?_, ?_, hgrand, ?_⟩
  · intro q hq
    rw [hdisp] at hq
    exact of_decide_eq_true (List.mem_filter.mp hq).2
  · intro q hq hpos
    rw [hdisp]
    exact List.mem_filter.mpr ⟨hperm.symm.mem_iff.mp hq, by simpa using hpos⟩
  · rw [hdisp, hgrand]
    have hnn' : ∀ q ∈ sorted_chains (chain_totals allB), 0 ≤ q.2 :=
      fun q hq => hnn q (hperm.mem_iff.mp hq)
    rw [sum_filter_pos_of_nonneg _ hnn']
    exact List.Perm.sum_eq (hperm.map (fun q => q.2))

lemma tiny_chain_totals : chain_totals tinyBalances =
    [("ethereum", 1 / 1000000000), ("base", 0), ("ink", 0), ("arbitrum", 0),
     ("hyperliquid", 0), ("unichain", 0), ("polygon", 0), ("optimism", 0),
     ("bsc", 0)] := by
  have h1 : tinyCollector "ethereum" = .ok [("0xa", 1 / 1000000000)] := rfl
  have h2 : tinyCollector "base" = .ok [] := rfl
  have h3 : tinyCollector "ink" = .ok [] := rfl
  have h4 : tinyCollector "arbitrum" = .ok [] := rfl
  have h5 : tinyCollector "hyperliquid" = .ok [] := rfl
  have h6 : tinyCollector "unichain" = .ok [] := rfl
  have h7 : tinyCollector "polygon" = .ok [] := rfl
  have h8 : tinyCollector "optimism" = .ok [] := rfl
  have h9 : tinyCollector "bsc" = .ok [] := rfl
  norm_num [chain_totals, chain_total, tinyBalances, get_all_balances,
    rpc_chains, h1, h2, h3, h4, h5, h6, h7, h8, h9]

lemma tiny_displayed : (build_summary tinyBalances 0).displayed =
    [("ethereum", 1 / 1000000000)] := by
  show displayed_chains tinyBalances = _
  rw [displayed_chains, tiny_chain_totals]
  norm_num [sorted_chains, List.insertionSort, List.orderedInsert, byDescTotal,
    List.filter_cons]

/-- C3 counterexample: a chain whose total is `10^-9` — strictly below the
claimed `1e-6` epsilon — is nevertheless present in the rendered breakdown,
because the code's display condition is `total > 0`, not `total ≥ 1e-6`. -/
theorem breakdown_shows_below_epsilon :
    ("ethereum", (1 / 1000000000 : ℚ)) ∈ (build_summary tinyBalances 0).displayed ∧
    (1 / 1000000000 : ℚ) < 1 / 1000000 := by
  rw [tiny_displayed]
  norm_num

/-- Witness for C3's amended theorem on the same concrete aggregation. -/
theorem breakdown_shows_positive_totals_witness :
    (∀ q ∈ (build_summary tinyBalances 5).displayed, 0 < q.2) ∧
    (∀ q ∈ chain_totals tinyBalances, 0 < q.2 →
      q ∈ (build_summary tinyBalances 5).displayed) ∧
    (build_summary tinyBalances 5).grand =
      ((chain_totals tinyBalances).map (fun q => q.2)).sum ∧
    ((build_summary tinyBalances 5).displayed.map (fun q => q.2)).sum =
      (build_summary tinyBalances 5).grand :=
  breakdown_shows_positive_totals tinyBalances 5 (by
    rw [tiny_chain_totals]
    intro q hq
    fin_cases hq <;> norm_num)

/-! ### C6: USD conversion and the price-unavailable notice -/

/-- C6 (amended): when the grand total is strictly positive, a positive
price produces the USD line `grand_total * eth_price` and no notice, while
a zero (or non-positive) price produces the explicit price-unavailable
notice and no USD line; a USD line is only ever produced when both the
grand total and the price are strictly positive, and its value is then
strictly positive — never `0`. The original claim's "total is non-zero"
is too strong: the code's guard is `grand_total > 0`, so a NEGATIVE total
(reachable via a negatively-signed RPC `result`) with a zero price shows
neither the USD line nor the notice. -/
theorem usd_price_guard (allB : List (String × List (String × ℚ))) (p : ℚ) :
    (0 < (build_summary allB p).grand → 0 < p →
      (build_summary allB p).usd = some ((build_summary allB p).grand * p) ∧
      (build_summary allB p).warn_no_price = false) ∧
    (0 < (build_summary allB p).grand → p ≤ 0 →
      (build_summary allB p).usd = none ∧
      (build_summary allB p).warn_no_price = true) ∧
    (∀ v, (build_summary allB p).usd = some v →
      0 < (build_summary allB p).grand ∧ 0 < p ∧ 0 < v) := by
  have hg : (build_summary allB p).grand = grand_total allB := rfl
  have hu : (build_summary allB p).usd = usd_value allB p := rfl
  have hw : (build_summary allB p).warn_no_price = warn_no_price allB p := rfl
  rw [hg, hu, hw]
  refine ⟨?_, ?_, ?_⟩
  · intro hgt hp
    rw [usd_value, warn_no_price, if_pos hgt, if_pos hgt, if_pos hp, if_pos hp]
    exact ⟨rfl, rfl⟩
  · intro hgt hp
    have hp' : ¬ 0 < p := not_lt.mpr hp
    rw [usd_value, warn_no_price, if_pos hgt, if_pos hgt, if_neg hp', if_neg hp']
    exact ⟨rfl, rfl⟩
  · intro v hv
    rw [usd_value] at hv
    by_cases hgt : 0 < grand_total allB
    · rw [if_pos hgt] at hv
      by_cases hp : 0 < p
      · rw [if_pos hp] at hv
        injection hv with hv
        exact ⟨hgt, hp, hv ▸ mul_pos hgt hp⟩
      · rw [if_neg hp] at hv
        exact Option.noConfusion hv
    · rw [if_neg hgt] at hv
      exact Option.noConfusion hv

lemma neg_reading_value :
    get_eth_balance (.response 200 (.object (some ("-0xde0b6b3a7640000".data)))) = -1 := by
  have h : parseHexInt ("-0xde0b6b3a7640000".data) = some (-1000000000000000000) := by
    decide
  simp [get_eth_balance, h]
  norm_num

lemma neg_grand_total : grand_total negBalances = -1 := by
  have h1 : negCollector "ethereum" =
      .ok [("0xa", get_eth_balance (.response 200 (.object (some ("-0xde0b6b3a7640000".data)))))] :=
    rfl
  have h2 : negCollector "base" = .ok [] := rfl
  have h3 : negCollector "ink" = .ok [] := rfl
  have h4 : negCollector "arbitrum" = .ok [] := rfl
  have h5 : negCollector "hyperliquid" = .ok [] := rfl
  have h6 : negCollector "unichain" = .ok [] := rfl
  have h7 : negCollector "polygon" = .ok [] := rfl
  have h8 : negCollector "optimism" = .ok [] := rfl
  have h9 : negCollector "bsc" = .ok [] := rfl
  rw [neg_reading_value] at h1
  norm_num [grand_total, chain_totals, chain_total, negBalances, get_all_balances,
    rpc_chains, h1, h2, h3, h4, h5, h6, h7, h8, h9]

/-- C6 counterexample: with the price fetch yielding `0` and a NON-ZERO
(negative) aggregated total produced by the code's own balance decoding,
the summary shows neither the USD line nor the price-unavailable notice —
refuting "whenever the price fetch yields zero while the aggregated
balance total is non-zero, the summary contains an explicit price
unavailable indicator". -/
theorem no_price_notice_on_negative_total :
    grand_total negBalances ≠ 0 ∧
    (build_summary negBalances 0).warn_no_price = false ∧
    (build_summary negBalances 0).usd = none := by
  refine ⟨by rw [neg_grand_total]; norm_num, ?_, ?_⟩
  · show warn_no_price negBalances 0 = false
    rw [warn_no_price, if_neg]
    rw [neg_grand_total]
    norm_num
  · show usd_value negBalances 0 = none
    rw [usd_value, if_neg]
    rw [neg_grand_total]
    norm_num

lemma tiny_grand_total : grand_total tinyBalances = 1 / 1000000000 := by
  have h : grand_total tinyBalances =
      ((chain_totals tinyBalances).map (fun q => q.2)).sum := rfl
  rw [h, tiny_chain_totals]
  norm_num

/-- Witness for C6's amended theorem: a positive total with a zero price
yields no USD line and the explicit notice. -/
theorem usd_price_guard_witness :
    (build_summary tinyBalances 0).usd = none ∧
    (build_summary tinyBalances 0).warn_no_price = true :=
  (usd_price_guard tinyBalances 0).2.1
    (by show 0 < grand_total tinyBalances; rw [tiny_grand_total]; norm_num)
    le_rfl

/-! ### C2: symbols and the grand total -/

/-- C2 (amended): `balance_command` forms no per-symbol totals at all — it
folds EVERY chain's total, whatever the chain's native asset, into the one
`grand_total` it renders as "TOTAL: ... ETH". Under the spec's native-symbol
registry model, the reported total is the sum of the per-symbol totals of
ALL symbols (ETH, HYPE, POL, BNB), not the ETH-symbol chains alone. -/
theorem grand_total_ignores_symbols
    (collector : String → Except Unit (List (String × ℚ)))
    (addresses : List String) :
    grand_total (get_all_balances collector addresses) =
      symbol_total "ETH" (get_all_balances collector addresses) +
      symbol_total "HYPE" (get_all_balances collector addresses) +
      symbol_total "POL" (get_all_balances collector addresses) +
      symbol_total "BNB" (get_all_balances collector addresses) := by
  have e1 : spec_native_symbol "ethereum" = "ETH" := rfl
  have e2 : spec_native_symbol "base" = "ETH" := rfl
  have e3 : spec_native_symbol "ink" = "ETH" := rfl
  have e4 : spec_native_symbol "arbitrum" = "ETH" := rfl
  have e5 : spec_native_symbol "hyperliquid" = "HYPE" := rfl
  have e6 : spec_native_symbol "unichain" = "ETH" := rfl
  have e7 : spec_native_symbol "polygon" = "POL" := rfl
  have e8 : spec_native_symbol "optimism" = "ETH" := rfl
  have e9 : spec_native_symbol "bsc" = "BNB" := rfl
  have dEE : decide (("ETH" : String) = "ETH") = true := rfl
  have dEH : decide (("ETH" : String) = "HYPE") = false := rfl
  have dEP : decide (("ETH" : String) = "POL") = false := rfl
  have dEB : decide (("ETH" : String) = "BNB") = false := rfl
  have dHE : decide (("HYPE" : String) = "ETH") = false := rfl
  have dHH : decide (("HYPE" : String) = "HYPE") = true := rfl
  have dHP : decide (("HYPE" : String) = "POL") = false := rfl
  have dHB : decide (("HYPE" : String) = "BNB") = false := rfl
  have dPE : decide (("POL" : String) = "ETH") = false := rfl
  have dPH : decide (("POL" : String) = "HYPE") = false := rfl
  have dPP : decide (("POL" : String) = "POL") = true := rfl
  have dPB : decide (("POL" : String) = "BNB") = false := rfl
  have dBE : decide (("BNB" : String) = "ETH") = false := rfl
  have dBH : decide (("BNB" : String) = "HYPE") = false := rfl
  have dBP : decide (("BNB" : String) = "POL") = false := rfl
  have dBB : decide (("BNB" : String) = "BNB") = true := rfl
  simp only [grand_total, symbol_total, chain_totals, get_all_balances, rpc_chains,
    List.map_cons, List.map_nil, List.filter_cons, List.filter_nil,
    e1, e2, e3, e4, e5, e6, e7, e8, e9,
    dEE, dEH, dEP, dEB, dHE, dHH, dHP, dHB, dPE, dPH, dPP, dPB,
    dBE, dBH, dBP, dBB,
    if_true, if_false, List.sum_cons, List.sum_nil]
  simp only [decide_True, if_true, Bool.false_eq_true, if_false,
    List.map_cons, List.map_nil, List.sum_cons, List.sum_nil]
  ring

lemma poly_chain_totals : chain_totals polyBalances =
    [("ethereum", 0), ("base", 0), ("ink", 0), ("arbitrum", 0),
     ("hyperliquid", 0), ("unichain", 0), ("polygon", 1), ("optimism", 0),
     ("bsc", 0)] := by
  have h1 : polyCollector "ethereum" = .ok [] := rfl
  have h2 : polyCollector "base" = .ok [] := rfl
  have h3 : polyCollector "ink" = .ok [] := rfl
  have h4 : polyCollector "arbitrum" = .ok [] := rfl
  have h5 : polyCollector "hyperliquid" = .ok [] := rfl
  have h6 : polyCollector "unichain" = .ok [] := rfl
  have h7 : polyCollector "polygon" = .ok [("0xa", 1)] := rfl
  have h8 : polyCollector "optimism" = .ok [] := rfl
  have h9 : polyCollector "bsc" = .ok [] := rfl
  norm_num [chain_totals, chain_total, polyBalances, get_all_balances,
    rpc_chains, h1, h2, h3, h4, h5, h6, h7, h8, h9]

/-- C2 counterexample: with 1 native unit on Polygon only, the total the
code reports (and labels ETH) is `1`, while the sum over the chains whose
native symbol is ETH is `0` — Polygon's balance flows into the ETH-labeled
total even though Polygon's native symbol is not ETH, refuting "a chain's
balance never contributes to the total of a different symbol". -/
theorem polygon_contributes_to_reported_total :
    spec_native_symbol "polygon" ≠ "ETH" ∧
    grand_total polyBalances = 1 ∧
    symbol_total "ETH" polyBalances = 0 := by
  have e1 : spec_native_symbol "ethereum" = "ETH" := rfl
  have e2 : spec_native_symbol "base" = "ETH" := rfl
  have e3 : spec_native_symbol "ink" = "ETH" := rfl
  have e4 : spec_native_symbol "arbitrum" = "ETH" := rfl
  have e5 : spec_native_symbol "hyperliquid" = "HYPE" := rfl
  have e6 : spec_native_symbol "unichain" = "ETH" := rfl
  have e7 : spec_native_symbol "polygon" = "POL" := rfl
  have e8 : spec_native_symbol "optimism" = "ETH" := rfl
  have e9 : spec_native_symbol "bsc" = "BNB" := rfl
  have dEE : decide (("ETH" : String) = "ETH") = true := rfl
  have dHE : decide (("HYPE" : String) = "ETH") = false := rfl
  have dPE : decide (("POL" : String) = "ETH") = false := rfl
  have dBE : decide (("BNB" : String) = "ETH") = false := rfl
  refine ⟨by decide, ?_, ?_⟩
  · have h : grand_total polyBalances =
        ((chain_totals polyBalances).map (fun q => q.2)).sum := rfl
    rw [h, poly_chain_totals]
    norm_num
  · rw [symbol_total, poly_chain_totals]
    simp only [List.filter_cons, List.filter_nil,
      e1, e2, e3, e4, e5, e6, e7, e8, e9, dEE, dHE, dPE, dBE,
      if_true, if_false]
    norm_num
